import Mathlib

/-!
Shallow embedding of `src/assets/js/diagnostico.js` (a client-side
diagnostics page script) over `List Char`, together with theorems about
its browser sniffing, OS sniffing, network-info aggregation, theme
toggle, HTML escaping and Markdown rendering.

Strings from the page environment (user-agent strings, fetched Markdown
text, storage values) are modelled as `List Char`; JavaScript regular
expression scans are modelled as left-to-right scanning functions that
advance one character on a failed match attempt, exactly as a JS regex
engine does.
-/

set_option maxRecDepth 20000

namespace Diagnostico

/-- Char list of a string literal. -/
def str (s : String) : List Char := s.data

/-- The backtick character (code 96). -/
def btick : Char := Char.ofNat 96

/-- `isPre pat l` : `pat` is a prefix of `l` (Boolean). -/
def isPre : List Char → List Char → Bool
  | [], _ => true
  | _ :: _, [] => false
  | p :: ps, c :: cs => p == c && isPre ps cs

/-- `hasSub pat l` : `pat` occurs as a contiguous substring of `l`;
this is JavaScript `l.includes(pat)`. -/
def hasSub (pat : List Char) : List Char → Bool
  | [] => pat.isEmpty
  | c :: cs => isPre pat (c :: cs) || hasSub pat cs

/-- Split at the first occurrence of `pat`: returns `(pre, suf)` with
`l = pre ++ pat ++ suf`, scanning left to right. -/
def splitFirst (pat : List Char) : List Char → Option (List Char × List Char)
  | [] => if pat.isEmpty then some ([], []) else none
  | c :: cs =>
    if isPre pat (c :: cs) then some ([], (c :: cs).drop pat.length)
    else
      match splitFirst pat cs with
      | some (pre, suf) => some (c :: pre, suf)
      | none => none

/-- Split at the last occurrence of `pat`, via the first occurrence of the
reversed pattern in the reversed list. -/
def splitLast (pat l : List Char) : Option (List Char × List Char) :=
  match splitFirst pat.reverse l.reverse with
  | none => none
  | some (rpost, rpre) => some (rpre.reverse, rpost.reverse)


/-! ### escapeHtml (lines 452-461)

`text.replace( /[&<>"']/g, ( m ) => map[m] )` replaces every occurrence of
one of the five reserved characters by its entity and leaves every other
character unchanged; a global single-character-class replace is exactly a
character-by-character rewrite. -/

/-- The double-quote character (code 34). -/
def dquote : Char := Char.ofNat 34

/-- The single-quote character (code 39). -/
def squote : Char := Char.ofNat 39

/-- Per-character lookup of the `map` object in `escapeHtml`. -/
def escapeMap (c : Char) : List Char :=
  if c = '&' then str "&amp;"
  else if c = '<' then str "&lt;"
  else if c = '>' then str "&gt;"
  else if c = dquote then str "&quot;"
  else if c = squote then str "&#039;"
  else [c]

/-- `escapeHtml` of lines 452-461: global replace of `[&<>"']` via `escapeMap`. -/
def escapeHtml : List Char → List Char
  | [] => []
  | c :: cs => escapeMap c ++ escapeHtml cs

/-- The five reserved characters of `escapeHtml`. -/
def specials : List Char := ['&', '<', '>', dquote, squote]

/-! ### Browser identification, getBrowserInfo (lines 65-106)

Only the user-agent-derived `name`/`version` fields are computed by the
function itself (lines 77-103); the remaining fields of the returned
object are verbatim `navigator` reads, not modelled. -/

/-- Scan for the JS regex `LIT(\d+)` where `LIT` is a literal: at each
position, if `pat` matches and at least one ASCII digit follows, the
(greedy, maximal) digit run is the capture; otherwise the scan advances
one character, as a JS regex engine does. -/
def scanLitNum (pat : List Char) : List Char → Option (List Char)
  | [] => none
  | c :: cs =>
    if isPre pat (c :: cs) then
      let ds := ((c :: cs).drop pat.length).takeWhile Char.isDigit
      if ds.isEmpty then scanLitNum pat cs else some ds
    else scanLitNum pat cs

/-- A character matched by the JS regex class `[\/\s]` (ASCII cases). -/
def opSep (c : Char) : Bool :=
  c = '/' || c = ' ' || c = '\t' || c = '\n' || c = '\r' ||
  c = Char.ofNat 11 || c = Char.ofNat 12

/-- One attempt of `(?:OPR|Opera)[\/\s](\d+)` at the current position. -/
def operaTry (l : List Char) : Option (List Char) :=
  let tryLit : List Char → Option (List Char) := fun lit =>
    if isPre lit l then
      match l.drop lit.length with
      | sep :: rest =>
        if opSep sep then
          let ds := rest.takeWhile Char.isDigit
          if ds.isEmpty then none else some ds
        else none
      | [] => none
    else none
  match tryLit (str "OPR") with
  | some ds => some ds
  | none => tryLit (str "Opera")

/-- Scan for the JS regex `(?:OPR|Opera)[\/\s](\d+)`. -/
def operaScan : List Char → Option (List Char)
  | [] => none
  | c :: cs =>
    match operaTry (c :: cs) with
    | some ds => some ds
    | none => operaScan cs

/-- `match?.[1] || 'Unknown'` on a capture that is a nonempty digit run. -/
def capOr (o : Option (List Char)) : List Char :=
  match o with
  | some d => d
  | none => str "Unknown"

/-- Condition of line 80: `ua.includes('Chrome') && !ua.includes('Edg') && !ua.includes('OPR')`. -/
def chromeCond (ua : List Char) : Bool :=
  hasSub (str "Chrome") ua && !hasSub (str "Edg") ua && !hasSub (str "OPR") ua

/-- Condition of line 84: `ua.includes('Safari') && !ua.includes('Chrome')`. -/
def safariCond (ua : List Char) : Bool :=
  hasSub (str "Safari") ua && !hasSub (str "Chrome") ua

/-- Condition of line 88. -/
def firefoxCond (ua : List Char) : Bool := hasSub (str "Firefox") ua

/-- Condition of line 92. -/
def edgeCond (ua : List Char) : Bool := hasSub (str "Edg") ua

/-- Condition of line 96: `ua.includes('OPR') || ua.includes('Opera')`. -/
def operaCond (ua : List Char) : Bool :=
  hasSub (str "OPR") ua || hasSub (str "Opera") ua

/-- The browser name/version pair derived from the user agent. -/
structure BrowserIdent where
  name : List Char
  version : List Char
  deriving DecidableEq

/-- Lines 77-103 of `getBrowserInfo`: the `if`/`else if` chain deriving
browser name and version from the user-agent string. -/
def getBrowserInfo (ua : List Char) : BrowserIdent :=
  if chromeCond ua then ⟨str "Chrome", capOr (scanLitNum (str "Chrome/") ua)⟩
  else if safariCond ua then ⟨str "Safari", capOr (scanLitNum (str "Version/") ua)⟩
  else if firefoxCond ua then ⟨str "Firefox", capOr (scanLitNum (str "Firefox/") ua)⟩
  else if edgeCond ua then ⟨str "Edge", capOr (scanLitNum (str "Edg/") ua)⟩
  else if operaCond ua then ⟨str "Opera", capOr (operaScan ua)⟩
  else ⟨str "Unknown", str "Unknown"⟩

/-! ### System identification, getSystemInfo (lines 111-158)

The user-agent-derived fields (`os`, `platform`, `mobile`) are modelled;
`cores` is a verbatim `navigator.hardwareConcurrency` read and `memory`
formats the floating-point `navigator.deviceMemory`, neither derived from
the user agent, so they are not modelled (no claim mentions them). -/

/-- The mobile-device regex test of line 154,
`/Mobile|Android|iOS|iPhone|iPad|iPod|BlackBerry|IEMobile|Opera Mini/i`;
the `i` flag is modelled by lowercasing (ASCII) both sides. -/
def mobileTest (ua : List Char) : Bool :=
  let lua := ua.map Char.toLower
  hasSub (str "mobile") lua || hasSub (str "android") lua ||
  hasSub (str "ios") lua || hasSub (str "iphone") lua ||
  hasSub (str "ipad") lua || hasSub (str "ipod") lua ||
  hasSub (str "blackberry") lua || hasSub (str "iemobile") lua ||
  hasSub (str "opera mini") lua

/-- The user-agent-derived part of the `getSystemInfo` result. -/
structure SysIdent where
  os : List Char
  platform : List Char
  mobile : Bool
  deriving DecidableEq

/-- Lines 112-140 and 154 of `getSystemInfo`; `uaDataPlatform` models
`navigator.userAgentData?.platform` (`none` when unavailable, and a JS
truthiness test guards the override). -/
def getSystemInfo (ua : List Char) (uaDataPlatform : Option (List Char)) : SysIdent :=
  let osPlat : List Char × List Char :=
    if hasSub (str "Win") ua then
      (if hasSub (str "Windows NT 10.0") ua || hasSub (str "Windows NT 11.0") ua then
        str "Windows 10/11"
      else str "Windows", str "Windows")
    else if hasSub (str "Mac") ua then (str "macOS", str "macOS")
    else if hasSub (str "Linux") ua then (str "Linux", str "Linux")
    else if hasSub (str "Android") ua then (str "Android", str "Android")
    else if hasSub (str "iOS") ua || hasSub (str "iPhone") ua ||
        hasSub (str "iPad") ua || hasSub (str "iPod") ua then (str "iOS", str "iOS")
    else (str "Unknown", str "Unknown")
  let plat : List Char :=
    match uaDataPlatform with
    | some p => if p.isEmpty then osPlat.2 else p
    | none => osPlat.2
  { os := osPlat.1, platform := plat, mobile := mobileTest ua }

/-! ### Network lookup, getNetworkInfo (lines 177-218)

The two `fetch`+`json()` stages are modelled by their outcomes: `none`
models a rejection anywhere in the stage (network error, non-JSON), and
`some` carries the parsed object, whose fields are `Option String`
(`none` models an absent/`undefined`/`null` JSON field).  Record fields
of the result that the JS code never assigns are `none`, modelling a JS
`undefined` property (which the page then renders as the text
"undefined"); assigned fields are `some`. -/

/-- Parsed body of the primary geolocation endpoint. -/
structure GeoData where
  ip : Option String
  city : Option String
  region : Option String
  country : Option String
  organization_name : Option String
  timezone : Option String
  deriving DecidableEq

/-- Parsed body of the secondary IP-only endpoint. -/
structure IpData where
  ip : Option String
  deriving DecidableEq

/-- The `navigator.connection` fields read at lines 187-190
(`connType` models the JS property `type`, whose name Lean reserves). -/
structure ConnData where
  connType : Option String
  effectiveType : Option String
  downlink : Option Nat
  rtt : Option Nat
  deriving DecidableEq

/-- The object returned by `getNetworkInfo`.  The four connection fields
are initialised to "Unknown" at lines 178-183; the six lookup fields are
`Option String` because the JS code creates them only on the paths that
assign them. -/
structure NetworkInfo where
  connection : String
  effectiveType : String
  downlink : String
  rtt : String
  ip : Option String
  city : Option String
  region : Option String
  country : Option String
  isp : Option String
  timezone : Option String
  deriving DecidableEq

/-- JS `value || 'Unknown'` on a string field (absent and empty are falsy). -/
def orUnknown (o : Option String) : String :=
  match o with
  | some s => if s = "" then "Unknown" else s
  | none => "Unknown"

/-- JS `value ? value + unit : 'Unknown'` on a numeric field (0 is falsy). -/
def numOr (o : Option Nat) (unit : String) : String :=
  match o with
  | some n => if n = 0 then "Unknown" else toString n ++ unit
  | none => "Unknown"

/-- `getNetworkInfo` (lines 177-218): connection sniffing, then the
primary geolocation call, with the secondary IP-only call tried only when
the primary stage rejected; both rejections are caught, so the function
always returns (totality of this definition). -/
def getNetworkInfo (conn : Option ConnData) (primaryRes : Option GeoData)
    (fallbackRes : Option IpData) : NetworkInfo :=
  let base : NetworkInfo :=
    { connection := "Unknown", effectiveType := "Unknown",
      downlink := "Unknown", rtt := "Unknown",
      ip := none, city := none, region := none, country := none,
      isp := none, timezone := none }
  let withConn : NetworkInfo :=
    match conn with
    | some c =>
      { base with
        connection := orUnknown c.connType
        effectiveType := orUnknown c.effectiveType
        downlink := numOr c.downlink " Mbps"
        rtt := numOr c.rtt " ms" }
    | none => base
  match primaryRes with
  | some d =>
    { withConn with
      ip := some (orUnknown d.ip)
      city := some (orUnknown d.city)
      region := some (orUnknown d.region)
      country := some (orUnknown d.country)
      isp := some (orUnknown d.organization_name)
      timezone := some (orUnknown d.timezone) }
  | none =>
    match fallbackRes with
    | some d => { withConn with ip := some (orUnknown d.ip) }
    | none => withConn

/-! ### Theme manager (lines 19-43)

State: the document's `data-theme` attribute (`none` when never set), the
`localStorage` key `theme` (`none` when absent), and the toggle icon. -/

/-- Document/storage/icon state touched by the theme manager. -/
structure ThemeState where
  docTheme : Option String
  stored : Option String
  icon : String
  deriving DecidableEq

/-- `updateThemeIcon` (lines 40-43). -/
def updateThemeIcon (theme : String) : String :=
  if theme = "dark" then "☀️" else "🌙"

/-- JS `value || dflt` on an optional string. -/
def orDefault (o : Option String) (dflt : String) : String :=
  match o with
  | some s => if s = "" then dflt else s
  | none => dflt

/-- `initTheme` (lines 19-23): `localStorage.getItem('theme') || 'light'`
(absent and empty are falsy), applied to the document and the icon. -/
def initTheme (st : ThemeState) : ThemeState :=
  let savedTheme := orDefault st.stored "light"
  { st with docTheme := some savedTheme, icon := updateThemeIcon savedTheme }

/-- `toggleTheme` (lines 28-35): reads the attribute, flips
`'dark'`/`'light'` (a non-`'dark'` attribute, including an unset one,
flips to `'dark'`), writes attribute, storage and icon. -/
def toggleTheme (st : ThemeState) : ThemeState :=
  let currentTheme := st.docTheme
  let newTheme := if currentTheme = some "dark" then "light" else "dark"
  { docTheme := some newTheme, stored := some newTheme,
    icon := updateThemeIcon newTheme }

/-! ### Markdown renderer, parseMarkdown (lines 413-447)

Each `html.replace(...)` of the source becomes one pass.  The scanning
passes (`**`, fenced code, inline code) jump past each successful match,
so they recurse on a non-structural suffix; they take a fuel argument
that the wrapper sets to the input length, which every step strictly
exceeds needing (a failed match attempt consumes one character, a
successful one consumes at least the matched characters), so the
fuel-exhausted branch is unreachable from the wrappers. -/

/-- Split into lines at each newline, i.e. the line structure that the
JS `m` (multiline) flag gives `^`/`$`.  Fueled split at every occurrence
of `pat`, JS `String.split` semantics. -/
def splitSubGo (pat : List Char) : Nat → List Char → List (List Char)
  | 0, l => [l]
  | fuel + 1, l =>
    match splitFirst pat l with
    | none => [l]
    | some (pre, suf) => pre :: splitSubGo pat fuel suf

/-- JS `s.split(pat)` for a nonempty `pat` (each piece consumes at least
one character of `l` plus the separator, so `l.length + 1` fuel always
suffices). -/
def splitOnSub (pat l : List Char) : List (List Char) := splitSubGo pat (l.length + 1) l

/-- JS `Array.prototype.join(sep)`. -/
def joinWith (sep : List Char) : List (List Char) → List Char
  | [] => []
  | [x] => x
  | x :: y :: xs => x ++ sep ++ joinWith sep (y :: xs)

/-- One line under a `^MARKER (.*$)` rule with replacement
`OPEN$1CLOSE`: a line starting with the marker is rewritten, any other
line is kept. -/
def lineRule (marker opn cls l : List Char) : List Char :=
  if isPre marker l then opn ++ l.drop marker.length ++ cls else l

/-- A whole `html.replace(/^MARKER (.*$)/gim, 'OPEN$1CLOSE')`: the rule
applied to every line (`g` + `m`; the `i` flag is vacuous for the
non-letter markers used). -/
def linePass (marker opn cls s : List Char) : List Char :=
  joinWith (str "\n") ((splitOnSub (str "\n") s).map (lineRule marker opn cls))

/-- Lazy search for the closing `**` of `/\*\*(.*?)\*\*/`: the nearest
following `**`, with no newline before it (`.` does not match `\n`);
returns the content (accumulated reversed) and the remainder. -/
def findBoldClose : List Char → List Char → Option (List Char × List Char)
  | _, [] => none
  | acc, '*' :: '*' :: rest => some (acc.reverse, rest)
  | _, '\n' :: _ => none
  | acc, c :: rest => findBoldClose (c :: acc) rest

/-- `html.replace(/\*\*(.*?)\*\*/g, '<strong>$1</strong>')` (line 422):
on `**` with a closing `**`, wrap; on `**` without one, fail this
position and re-scan from the next character, as the regex engine does. -/
def boldGo : Nat → List Char → List Char
  | 0, l => l
  | _ + 1, [] => []
  | fuel + 1, '*' :: '*' :: rest =>
    (match findBoldClose [] rest with
     | some (content, after) =>
       str "<strong>" ++ content ++ str "</strong>" ++ boldGo fuel after
     | none => '*' :: boldGo fuel ('*' :: rest))
  | fuel + 1, c :: rest => c :: boldGo fuel rest

/-- The bold pass with its fuel. -/
def boldPass (s : List Char) : List Char := boldGo s.length s

/-- Three backticks. -/
def tbt : List Char := [btick, btick, btick]

/-- ASCII whitespace for `trim`. -/
def opSpace (c : Char) : Bool :=
  c = ' ' || c = '\t' || c = '\n' || c = '\r' ||
  c = Char.ofNat 11 || c = Char.ofNat 12

/-- Leading/trailing-whitespace trim, JS `String.prototype.trim` on the
ASCII whitespace characters. -/
def jsTrim (l : List Char) : List Char :=
  ((l.dropWhile opSpace).reverse.dropWhile opSpace).reverse

/-- Lines 425-428, `html.replace(/```[\s\S]*?```/g, cb)` where the
callback strips the two fences from the (lazy, hence fence-free) match,
trims it and embeds it HTML-escaped in `<pre><code>`. -/
def codeGo : Nat → List Char → List Char
  | 0, l => l
  | _ + 1, [] => []
  | fuel + 1, c :: rest =>
    if isPre tbt (c :: rest) then
      match splitFirst tbt ((c :: rest).drop 3) with
      | some (content, after) =>
        str "<pre><code>" ++ escapeHtml (jsTrim content) ++ str "</code></pre>"
          ++ codeGo fuel after
      | none => c :: codeGo fuel rest
    else c :: codeGo fuel rest

/-- The fenced-code pass with its fuel. -/
def codeBlockPass (s : List Char) : List Char := codeGo s.length s

/-- Line 431, `html.replace(/`([^`]+)`/g, '<code>$1</code>')`: a
backtick, a nonempty run of non-backticks, a backtick; the captured run
is embedded verbatim.  An empty run or a missing closing backtick fails
the position and the scan moves one character on. -/
def inlineGo : Nat → List Char → List Char
  | 0, l => l
  | _ + 1, [] => []
  | fuel + 1, c :: rest =>
    if c = btick then
      match splitFirst [btick] rest with
      | some (content, after) =>
        if content.isEmpty then c :: inlineGo fuel rest
        else str "<code>" ++ content ++ str "</code>" ++ inlineGo fuel after
      | none => c :: inlineGo fuel rest
    else c :: inlineGo fuel rest

/-- The inline-code pass with its fuel. -/
def inlineCodePass (s : List Char) : List Char := inlineGo s.length s

/-- Line 436, `html.replace(/(<li>.*<\/li>)/s, '<ul>$1</ul>')`: a single
(non-global) replacement whose `.` matches newlines (`s` flag) and is
greedy, so the one match runs from the first `<li>` to the last `</li>`
of the whole string; no match leaves the string unchanged. -/
def ulStep (s : List Char) : List Char :=
  match splitFirst (str "<li>") s with
  | none => s
  | some (pre, rest) =>
    match splitLast (str "</li>") rest with
    | none => s
    | some (mid, post) =>
      pre ++ str "<ul>" ++ str "<li>" ++ mid ++ str "</li>" ++ str "</ul>" ++ post

/-- `paragraph.replace(/\n/g, '<br>')` (line 441). -/
def nlToBr : List Char → List Char
  | [] => []
  | c :: cs => (if c = '\n' then str "<br>" else [c]) ++ nlToBr cs

/-- One block of the final paragraph rule (lines 439-444): a block
already starting with `<` is emitted unchanged, anything else is wrapped
in `<p>` with inner newlines as `<br>`. -/
def paraBlock (b : List Char) : List Char :=
  if isPre (str "<") b then b
  else str "<p>" ++ nlToBr b ++ str "</p>"

/-- Lines 439-444: split on blank lines, wrap each block, join with a
single newline. -/
def paragraphStep (s : List Char) : List Char :=
  joinWith (str "\n") ((splitOnSub (str "\n\n") s).map paraBlock)

/-- `parseMarkdown` (lines 413-447), the passes composed in source
order: `###`, `##`, `#` headers, bold, fenced code, inline code, `*`
list items, `-` list items, the single `<ul>` wrap, paragraphs. -/
def parseMarkdown (s : List Char) : List Char :=
  paragraphStep (ulStep
    (linePass (str "- ") (str "<li>") (str "</li>")
      (linePass (str "* ") (str "<li>") (str "</li>")
        (inlineCodePass (codeBlockPass (boldPass
          (linePass (str "# ") (str "<h1>") (str "</h1>")
            (linePass (str "## ") (str "<h2>") (str "</h2>")
              (linePass (str "### ") (str "<h3>") (str "</h3>") s)))))))))

/-- Number of (non-overlapping, left-to-right) occurrences of `pat`. -/
def countSub (pat l : List Char) : Nat := (splitOnSub pat l).length - 1



/-! ### Orderings of the browser matchers

`firstMatchName` turns an ordered list of (condition, name) matchers into
the name of the first matching one; `sourceOrderName` lists the matchers
in the source's `else if` order, while `claimPriorityName` is modelled
from the spec's words, which state the priority order Chrome, Edge,
Opera, Firefox, Safari. -/

/-- Name of the first matcher in the list whose condition holds, else
"Unknown". -/
def firstMatchName : List ((List Char → Bool) × List Char) → List Char → List Char
  | [], _ => str "Unknown"
  | (cond, nm) :: rest, ua => if cond ua then nm else firstMatchName rest ua

/-- The matcher order of the source (lines 80-100): Chrome, Safari,
Firefox, Edge, Opera, with the guards of each branch condition. -/
def sourceOrderName (ua : List Char) : List Char :=
  firstMatchName
    [(chromeCond, str "Chrome"), (safariCond, str "Safari"),
     (firefoxCond, str "Firefox"), (edgeCond, str "Edge"),
     (operaCond, str "Opera")] ua

/-- Modelled from the spec: the claimed resolution order "Chrome/Edge/
Opera/Firefox/Safari, in that priority order", with each browser's
substring pattern (including its guards). -/
def claimPriorityName (ua : List Char) : List Char :=
  firstMatchName
    [(chromeCond, str "Chrome"), (edgeCond, str "Edge"),
     (operaCond, str "Opera"), (firefoxCond, str "Firefox"),
     (safariCond, str "Safari")] ua

/-! ## Theorems -/

section ScanLemmas

theorem isPre_refl_app (x z : List Char) : isPre x (x ++ z) = true := by
  induction x with
  | nil => rfl
  | cons a as ih => simp [isPre, ih]

theorem isPre_ext {x y : List Char} (h : isPre x y = true) (z : List Char) :
    isPre x (y ++ z) = true := by
  induction x generalizing y with
  | nil => rfl
  | cons a as ih =>
    cases y with
    | nil => simp [isPre] at h
    | cons b bs =>
      simp [isPre] at h
      simp [isPre, h.1, ih h.2]

theorem isPre_app_drop {x l : List Char} (h : isPre x l = true) :
    l = x ++ l.drop x.length := by
  induction x generalizing l with
  | nil => simp
  | cons a as ih =>
    cases l with
    | nil => simp [isPre] at h
    | cons b bs =>
      simp [isPre] at h
      obtain ⟨h1, h2⟩ := h
      simpa [h1] using ih h2

theorem isPre_of_le {x y l : List Char} (hx : isPre x l = true)
    (hy : isPre y l = true) (hlen : x.length ≤ y.length) : isPre x y = true := by
  induction x generalizing y l with
  | nil => rfl
  | cons a as ih =>
    cases y with
    | nil => simp at hlen
    | cons b bs =>
      cases l with
      | nil => simp [isPre] at hx
      | cons c cs =>
        simp [isPre] at hx hy
        simp only [List.length_cons, Nat.add_le_add_iff_right] at hlen
        simp [isPre, hx.1, hy.1.symm, ih hx.2 hy.2 hlen]

theorem hasSub_head {p l : List Char} (h : isPre p l = true) : hasSub p l = true := by
  cases l with
  | nil =>
    cases p with
    | nil => rfl
    | cons a as => simp [isPre] at h
  | cons c cs => simp [hasSub, h]

theorem hasSub_cons {p l : List Char} (c : Char) (h : hasSub p l = true) :
    hasSub p (c :: l) = true := by
  simp [hasSub, h]

theorem hasSub_app_left {p l : List Char} (x : List Char) (h : hasSub p l = true) :
    hasSub p (x ++ l) = true := by
  induction x with
  | nil => simpa using h
  | cons c cs ih => simpa using hasSub_cons c ih

theorem splitFirst_some {pat l pre suf : List Char}
    (h : splitFirst pat l = some (pre, suf)) : l = pre ++ pat ++ suf := by
  induction l generalizing pre with
  | nil =>
    by_cases hp : pat.isEmpty
    · simp [splitFirst, hp] at h
      obtain ⟨h1, h2⟩ := h
      subst h1; subst h2
      simp [List.isEmpty_iff.mp hp]
    · simp [splitFirst, hp] at h
  | cons c cs ih =>
    by_cases hpre : isPre pat (c :: cs) = true
    · simp [splitFirst, hpre] at h
      obtain ⟨h1, h2⟩ := h
      subst h1; subst h2
      simpa using isPre_app_drop hpre
    · simp only [splitFirst, hpre, if_false] at h
      cases hrec : splitFirst pat cs with
      | none => simp [hrec] at h
      | some pr =>
        obtain ⟨pr1, pr2⟩ := pr
        simp [hrec] at h
        obtain ⟨h1, h2⟩ := h
        subst h1
        have := ih (show splitFirst pat cs = some (pr1, suf) by
          simpa [h2] using hrec)
        simp [this]

theorem isPre_shift_false (pat : List Char) (hpat : pat ≠ []) (c : Char)
    (pr tail : List Char)
    (hno : hasSub pat (c :: (pr ++ pat.dropLast)) = false) :
    isPre pat (c :: (pr ++ (pat ++ tail))) = false := by
  cases hval : isPre pat (c :: (pr ++ (pat ++ tail))) with
  | false => rfl
  | true =>
    have hdecomp : c :: (pr ++ (pat ++ tail))
        = (c :: (pr ++ pat.dropLast)) ++ ([pat.getLast hpat] ++ tail) := by
      have hgl := List.dropLast_append_getLast hpat
      calc c :: (pr ++ (pat ++ tail))
          = c :: (pr ++ ((pat.dropLast ++ [pat.getLast hpat]) ++ tail)) := by
            rw [hgl]
        _ = (c :: (pr ++ pat.dropLast)) ++ ([pat.getLast hpat] ++ tail) := by
            simp
    have hpre2 : isPre (c :: (pr ++ pat.dropLast))
        (c :: (pr ++ (pat ++ tail))) = true := by
      rw [hdecomp]; exact isPre_refl_app _ _
    have hlen : pat.length ≤ (c :: (pr ++ pat.dropLast)).length := by
      have h1 : pat.dropLast.length = pat.length - 1 := by
        simp [List.length_dropLast]
      have h2 : 1 ≤ pat.length := by
        cases pat with
        | nil => simp at hpat
        | cons _ _ => simp
      simp only [List.length_cons, List.length_append, h1]
      omega
    have hsub : hasSub pat (c :: (pr ++ pat.dropLast)) = true :=
      hasSub_head (isPre_of_le hval hpre2 hlen)
    rw [hsub] at hno
    exact Bool.noConfusion hno

theorem splitFirst_app (pat pre suf : List Char) (hpat : pat ≠ [])
    (hno : hasSub pat (pre ++ pat.dropLast) = false) :
    splitFirst pat (pre ++ (pat ++ suf)) = some (pre, suf) := by
  induction pre with
  | nil =>
    cases pat with
    | nil => simp at hpat
    | cons a ps =>
      have hp : isPre (a :: ps) ((a :: ps) ++ suf) = true := isPre_refl_app _ _
      simp only [List.nil_append]
      show splitFirst (a :: ps) (a :: (ps ++ suf)) = some ([], suf)
      simp [splitFirst, show isPre (a :: ps) (a :: (ps ++ suf)) = true from hp,
        List.drop_left' (by simp : (a :: ps).length = (a :: ps).length)]
  | cons c pr ih =>
    simp only [List.cons_append] at hno ⊢
    have hno' : hasSub pat (pr ++ pat.dropLast) = false := by
      cases hval : hasSub pat (pr ++ pat.dropLast) with
      | false => rfl
      | true =>
        rw [hasSub_cons c hval] at hno
        exact Bool.noConfusion hno
    have hfail := isPre_shift_false pat hpat c pr suf hno
    show splitFirst pat (c :: (pr ++ (pat ++ suf))) = some (c :: pr, suf)
    simp [splitFirst, hfail, ih hno']

theorem takeWhile_app_all {P : Char → Bool} {d : List Char}
    (hd : ∀ c ∈ d, P c = true) (s : List Char) :
    (d ++ s).takeWhile P = d ++ s.takeWhile P := by
  induction d with
  | nil => simp
  | cons a as ih =>
    have ha : P a = true := hd a (by simp)
    have ih2 := ih (fun c hc => hd c (by simp [hc]))
    simp [List.takeWhile_cons, ha, ih2]

theorem takeWhile_nil_of_head {P : Char → Bool} {s : List Char}
    (hs : ∀ c ∈ s.take 1, P c = false) : s.takeWhile P = [] := by
  cases s with
  | nil => rfl
  | cons c cs =>
    have := hs c (by simp)
    simp [List.takeWhile_cons, this]

end ScanLemmas

/-- Where the scanned string decomposes as `p ++ pat ++ d ++ s` with no
occurrence of `pat` starting inside `p` (`pat` is not a substring of
`p ++ pat.dropLast`), `d` a nonempty digit run and `s` not starting with
a digit, the `LIT(\d+)` scan captures exactly `d`. -/
theorem scanLitNum_at (pat d s : List Char) (hpat : pat ≠ []) (hd : d ≠ [])
    (hdig : ∀ c ∈ d, c.isDigit = true)
    (hs : ∀ c ∈ s.take 1, c.isDigit = false) :
    ∀ p, hasSub pat (p ++ pat.dropLast) = false →
      scanLitNum pat (p ++ (pat ++ (d ++ s))) = some d := by
  intro p
  induction p with
  | nil =>
    intro _
    cases pat with
    | nil => simp at hpat
    | cons a ps =>
      show scanLitNum (a :: ps) (a :: (ps ++ (d ++ s))) = some d
      have hp : isPre (a :: ps) (a :: (ps ++ (d ++ s))) = true :=
        isPre_refl_app (a :: ps) (d ++ s)
      have hdrop : (a :: (ps ++ (d ++ s))).drop (a :: ps).length = d ++ s :=
        List.drop_left (a :: ps) (d ++ s)
      simp only [scanLitNum, hp, if_true, hdrop,
        takeWhile_app_all hdig, takeWhile_nil_of_head hs]
      simp [hd]
  | cons c pr ih =>
    intro hno
    simp only [List.cons_append] at hno ⊢
    have hno' : hasSub pat (pr ++ pat.dropLast) = false := by
      cases hval : hasSub pat (pr ++ pat.dropLast) with
      | false => rfl
      | true =>
        rw [hasSub_cons c hval] at hno
        exact Bool.noConfusion hno
    have hfail := isPre_shift_false pat hpat c pr (d ++ s) hno
    show scanLitNum pat (c :: (pr ++ (pat ++ (d ++ s)))) = some d
    simp [scanLitNum, hfail, ih hno']

/-! ### Substring and reversal lemmas -/

theorem isPre_iff {p l : List Char} : isPre p l = true ↔ ∃ r, l = p ++ r := by
  constructor
  · intro h
    exact ⟨l.drop p.length, isPre_app_drop h⟩
  · rintro ⟨r, rfl⟩
    exact isPre_refl_app p r

theorem hasSub_iff {p l : List Char} : hasSub p l = true ↔ ∃ x y, l = x ++ (p ++ y) := by
  induction l with
  | nil =>
    simp only [hasSub, List.isEmpty_iff]
    constructor
    · intro h
      exact ⟨[], [], by simp [h]⟩
    · rintro ⟨x, y, hxy⟩
      rcases List.append_eq_nil.mp hxy.symm with ⟨hx, hrest⟩
      rcases List.append_eq_nil.mp hrest with ⟨hp, hy⟩
      exact hp
  | cons c cs ih =>
    simp only [hasSub, Bool.or_eq_true]
    constructor
    · rintro (h | h)
      · obtain ⟨r, hr⟩ := isPre_iff.mp h
        exact ⟨[], r, by simp [hr]⟩
      · obtain ⟨x, y, hxy⟩ := ih.mp h
        exact ⟨c :: x, y, by simp [hxy]⟩
    · rintro ⟨x, y, hxy⟩
      cases x with
      | nil =>
        exact Or.inl (isPre_iff.mpr ⟨y, by simpa using hxy⟩)
      | cons a xs =>
        simp only [List.cons_append, List.cons.injEq] at hxy
        exact Or.inr (ih.mpr ⟨xs, y, hxy.2⟩)

theorem hasSub_rev {p l : List Char} : hasSub p.reverse l.reverse = hasSub p l := by
  cases h1 : hasSub p l with
  | true =>
    obtain ⟨x, y, rfl⟩ := hasSub_iff.mp h1
    have hr : (x ++ (p ++ y)).reverse = y.reverse ++ (p.reverse ++ x.reverse) := by
      simp
    rw [hr]
    exact hasSub_iff.mpr ⟨y.reverse, x.reverse, rfl⟩
  | false =>
    cases h2 : hasSub p.reverse l.reverse with
    | false => rfl
    | true =>
      obtain ⟨x, y, hxy⟩ := hasSub_iff.mp h2
      have hl : l = y.reverse ++ (p ++ x.reverse) := by
        have := congrArg List.reverse hxy
        simpa using this
      rw [hasSub_iff.mpr ⟨y.reverse, x.reverse, hl⟩] at h1
      exact Bool.noConfusion h1

theorem splitLast_app (pat mid post : List Char) (hpat : pat ≠ [])
    (hno : hasSub pat.reverse (post.reverse ++ pat.reverse.dropLast) = false) :
    splitLast pat (mid ++ (pat ++ post)) = some (mid, post) := by
  unfold splitLast
  have hrev : (mid ++ (pat ++ post)).reverse
      = post.reverse ++ (pat.reverse ++ mid.reverse) := by
    simp
  rw [hrev, splitFirst_app pat.reverse post.reverse mid.reverse
    (by simpa using hpat) hno]
  simp

/-! ### escapeHtml lemmas -/

theorem escapeHtml_app (a b : List Char) :
    escapeHtml (a ++ b) = escapeHtml a ++ escapeHtml b := by
  induction a with
  | nil => rfl
  | cons c cs ih => simp [escapeHtml, ih]

theorem escapeMap_self {c : Char} (h : ¬ c ∈ specials) : escapeMap c = [c] := by
  simp only [specials, List.mem_cons, List.mem_singleton] at h
  push_neg at h
  obtain ⟨h1, h2, h3, h4, h5⟩ := h
  simp [escapeMap, h1, h2, h3, h4, h5]

theorem escapeHtml_id {s : List Char} (h : ∀ c ∈ s, ¬ c ∈ specials) :
    escapeHtml s = s := by
  induction s with
  | nil => rfl
  | cons c cs ih =>
    have h1 := escapeMap_self (h c (by simp))
    have h2 := ih (fun x hx => h x (by simp [hx]))
    simp [escapeHtml, h1, h2]

theorem escapeMap_len_pos (c : Char) : 1 ≤ (escapeMap c).length := by
  unfold escapeMap
  split_ifs <;> first | decide | simp

theorem length_le_escape (s : List Char) : s.length ≤ (escapeHtml s).length := by
  induction s with
  | nil => simp [escapeHtml]
  | cons c cs ih =>
    have h1 := escapeMap_len_pos c
    simp only [escapeHtml, List.length_append, List.length_cons]
    omega

theorem amp_mem_escape {c : Char} (hsp : c ∈ specials) :
    ∀ {s : List Char}, c ∈ s → '&' ∈ escapeHtml s := by
  intro s
  induction s with
  | nil => intro h; cases h
  | cons a as ih =>
    intro hc
    rcases List.mem_cons.mp hc with h | h
    · subst h
      apply List.mem_append_left
      fin_cases hsp <;> decide
    · exact List.mem_append_right _ (ih h)

theorem length_lt_escape {t : List Char} (h : '&' ∈ t) :
    t.length < (escapeHtml t).length := by
  induction t with
  | nil => cases h
  | cons a as ih =>
    rcases List.mem_cons.mp h with h1 | h1
    · have hq := length_le_escape as
      subst h1
      simp only [escapeHtml, List.length_append, List.length_cons]
      have : (escapeMap '&').length = 5 := by decide
      omega
    · have hq := ih h1
      have h2 := escapeMap_len_pos a
      simp only [escapeHtml, List.length_append, List.length_cons]
      omega

/-! ## Claim theorems -/

/-- Claim C1 (the code diverges from it): when the primary stage fails
and the secondary succeeds, only `ip` is assigned; `city`, `region`,
`country`, `isp` and `timezone` remain unassigned (`none`, i.e. JS
`undefined`), not the claimed "Unknown"; when both fail, all six lookup
fields remain unassigned.  The primary-success conjuncts show the
contrast: there omitted response fields do become `"Unknown"`.  The
operation itself always returns (it is a total function). -/
theorem getNetworkInfo_fallback_fields :
    (getNetworkInfo none none (some ⟨some "1.2.3.4"⟩)).ip = some "1.2.3.4" ∧
    (getNetworkInfo none none (some ⟨some "1.2.3.4"⟩)).city = none ∧
    (getNetworkInfo none none (some ⟨some "1.2.3.4"⟩)).region = none ∧
    (getNetworkInfo none none (some ⟨some "1.2.3.4"⟩)).country = none ∧
    (getNetworkInfo none none (some ⟨some "1.2.3.4"⟩)).isp = none ∧
    (getNetworkInfo none none (some ⟨some "1.2.3.4"⟩)).timezone = none ∧
    (getNetworkInfo none none none).ip = none ∧
    (getNetworkInfo none none none).city = none ∧
    (getNetworkInfo none
      (some ⟨some "9.9.9.9", none, some "Madrid", none, none, none⟩) none).region
      = some "Madrid" ∧
    (getNetworkInfo none
      (some ⟨some "9.9.9.9", none, some "Madrid", none, none, none⟩) none).city
      = some "Unknown" := by
  decide

/-- Claim C2: any user agent containing "Chrome" but neither "Edg" nor
"OPR" is identified as "Chrome"; and when it decomposes as
`p ++ "Chrome/" ++ d ++ s` with no occurrence of "Chrome/" starting
inside `p`, `d` a nonempty digit run and `s` not starting with a digit,
the version is exactly `d`, the digit sequence immediately following
"Chrome/". -/
theorem getBrowserInfo_chrome :
    (∀ ua : List Char, hasSub (str "Chrome") ua = true →
      hasSub (str "Edg") ua = false → hasSub (str "OPR") ua = false →
      (getBrowserInfo ua).name = str "Chrome") ∧
    (∀ p d s : List Char,
      hasSub (str "Chrome/") (p ++ str "Chrome") = false →
      hasSub (str "Edg") (p ++ (str "Chrome/" ++ (d ++ s))) = false →
      hasSub (str "OPR") (p ++ (str "Chrome/" ++ (d ++ s))) = false →
      d ≠ [] → (∀ c ∈ d, c.isDigit = true) →
      (∀ c ∈ s.take 1, c.isDigit = false) →
      getBrowserInfo (p ++ (str "Chrome/" ++ (d ++ s))) = ⟨str "Chrome", d⟩) := by
  constructor
  · intro ua hC hEdg hOPR
    simp [getBrowserInfo, chromeCond, hC, hEdg, hOPR]
  · intro p d s hp hEdg hOPR hd hdig hs
    have hC : hasSub (str "Chrome") (p ++ (str "Chrome/" ++ (d ++ s))) = true := by
      have h1 : isPre (str "Chrome") (str "Chrome/" ++ (d ++ s)) = true :=
        isPre_ext (by decide) (d ++ s)
      exact hasSub_app_left p (hasSub_head h1)
    have hdl : (str "Chrome/").dropLast = str "Chrome" := by decide
    have hscan : scanLitNum (str "Chrome/") (p ++ (str "Chrome/" ++ (d ++ s)))
        = some d := by
      apply scanLitNum_at (str "Chrome/") d s (by decide) hd hdig hs p
      rw [hdl]
      exact hp
    simp [getBrowserInfo, chromeCond, hC, hEdg, hOPR, hscan, capOr]

/-- Witness for C2 at a realistic Chrome user agent. -/
theorem getBrowserInfo_chrome_witness :
    getBrowserInfo (str "Mozilla/5.0 "
        ++ (str "Chrome/" ++ (str "120" ++ str ".0.0.0 Safari/537.36")))
      = ⟨str "Chrome", str "120"⟩ :=
  getBrowserInfo_chrome.2 (str "Mozilla/5.0 ") (str "120")
    (str ".0.0.0 Safari/537.36") (by decide) (by decide) (by decide)
    (by decide) (by decide) (by decide)

/-- Claim C3 is false on the code: the user agent "Firefox Edg" matches
both the Firefox and the Edge substring patterns; the claimed priority
order Chrome, Edge, Opera, Firefox, Safari would yield "Edge", but the
code yields "Firefox". -/
theorem browser_priority_cx :
    (getBrowserInfo (str "Firefox Edg")).name = str "Firefox" ∧
    claimPriorityName (str "Firefox Edg") = str "Edge" ∧
    (getBrowserInfo (str "Firefox Edg")).name
      ≠ claimPriorityName (str "Firefox Edg") := by
  decide

/-- Claim C3 as amended: overlaps are resolved in the source's branch
order Chrome (absent "Edg"/"OPR"), then Safari (absent "Chrome"), then
Firefox, then Edge, then Opera: the returned name is that of the first
matcher in this order whose pattern the user agent satisfies. -/
theorem browser_source_order (ua : List Char) :
    (getBrowserInfo ua).name = sourceOrderName ua := by
  simp only [getBrowserInfo, sourceOrderName, firstMatchName]
  split_ifs <;> rfl

/-- Claim C4: a user agent containing none of the known browser
substrings and none of the known OS substrings yields browser name and
version "Unknown" and OS "Unknown" (for any `userAgentData` platform,
which only influences the `platform` field). -/
theorem unknown_on_no_match (ua : List Char) (upd : Option (List Char))
    (h1 : hasSub (str "Chrome") ua = false)
    (h2 : hasSub (str "Safari") ua = false)
    (h3 : hasSub (str "Firefox") ua = false)
    (h4 : hasSub (str "Edg") ua = false)
    (h5 : hasSub (str "OPR") ua = false)
    (h6 : hasSub (str "Opera") ua = false)
    (h7 : hasSub (str "Win") ua = false)
    (h8 : hasSub (str "Mac") ua = false)
    (h9 : hasSub (str "Linux") ua = false)
    (h10 : hasSub (str "Android") ua = false)
    (h11 : hasSub (str "iOS") ua = false)
    (h12 : hasSub (str "iPhone") ua = false)
    (h13 : hasSub (str "iPad") ua = false)
    (h14 : hasSub (str "iPod") ua = false) :
    getBrowserInfo ua = ⟨str "Unknown", str "Unknown"⟩ ∧
    (getSystemInfo ua upd).os = str "Unknown" := by
  constructor
  · simp [getBrowserInfo, chromeCond, safariCond, firefoxCond, edgeCond,
      operaCond, h1, h2, h3, h4, h5, h6]
  · cases upd <;>
      simp [getSystemInfo, h7, h8, h9, h10, h11, h12, h13, h14]

/-- Witness for C4 at the user agent "zzz". -/
theorem unknown_on_no_match_witness :
    getBrowserInfo (str "zzz") = ⟨str "Unknown", str "Unknown"⟩ ∧
    (getSystemInfo (str "zzz") none).os = str "Unknown" :=
  unknown_on_no_match (str "zzz") none (by decide) (by decide) (by decide)
    (by decide) (by decide) (by decide) (by decide) (by decide) (by decide)
    (by decide) (by decide) (by decide) (by decide) (by decide)

/-- Claim C5: `escapeHtml` maps each of the five reserved characters to
its entity, leaves every other character unchanged, and distributes over
concatenation (so each occurrence is rewritten in place); it is a total
function, so it never fails. -/
theorem escapeHtml_pointwise :
    escapeHtml (str "<") = str "&lt;" ∧
    escapeHtml (str ">") = str "&gt;" ∧
    escapeHtml (str "&") = str "&amp;" ∧
    escapeHtml [dquote] = str "&quot;" ∧
    escapeHtml [squote] = str "&#039;" ∧
    (∀ c : Char, ¬ c ∈ specials → escapeHtml [c] = [c]) ∧
    (∀ a b : List Char, escapeHtml (a ++ b) = escapeHtml a ++ escapeHtml b) := by
  refine ⟨by decide, by decide, by decide, by decide, by decide, ?_, escapeHtml_app⟩
  intro c h
  simp [escapeHtml, escapeMap_self h]

/-- Witness for C5: an unreserved character passes through unchanged. -/
theorem escapeHtml_pointwise_witness :
    escapeHtml [Char.ofNat 120] = [Char.ofNat 120] :=
  escapeHtml_pointwise.2.2.2.2.2.1 (Char.ofNat 120) (by decide)

/-- Claim C6: `escapeHtml` is idempotent exactly on inputs free of the
five reserved characters: such inputs are fixed points, and any input
containing a reserved character changes again under a second
application. -/
theorem escapeHtml_idem_iff (s : List Char) :
    ((∀ c ∈ s, ¬ c ∈ specials) →
      escapeHtml s = s ∧ escapeHtml (escapeHtml s) = escapeHtml s) ∧
    ((∃ c ∈ s, c ∈ specials) →
      escapeHtml (escapeHtml s) ≠ escapeHtml s) := by
  constructor
  · intro h
    have h1 := escapeHtml_id h
    exact ⟨h1, by rw [h1, h1]⟩
  · rintro ⟨c, hc, hsp⟩ heq
    have hamp : '&' ∈ escapeHtml s := amp_mem_escape hsp hc
    have hlt := length_lt_escape hamp
    rw [heq] at hlt
    exact lt_irrefl _ hlt

/-- Witness for C6 on "ab" (reserved-free) and "a&b" (contains `&`). -/
theorem escapeHtml_idem_iff_witness :
    escapeHtml (str "ab") = str "ab" ∧
    escapeHtml (escapeHtml (str "a&b")) ≠ escapeHtml (str "a&b") :=
  ⟨((escapeHtml_idem_iff (str "ab")).1 (by decide)).1,
   (escapeHtml_idem_iff (str "a&b")).2 (by decide)⟩

/-- Claim C7: the renderer maps "# Title\n\nBody text" to exactly
"<h1>Title</h1>\n<p>Body text</p>", and the final paragraph rule leaves
any blank-line-delimited block that already starts with `<` unchanged,
so output of the earlier rules is never wrapped a second time. -/
theorem parseMarkdown_no_double_wrap :
    parseMarkdown (str "# Title\n\nBody text")
      = str "<h1>Title</h1>\n<p>Body text</p>" ∧
    ∀ b : List Char, isPre (str "<") b = true → paraBlock b = b := by
  refine ⟨by decide, ?_⟩
  intro b h
  simp [paraBlock, h]

/-- Witness for C7: a block already starting with `<` is untouched. -/
theorem parseMarkdown_no_double_wrap_witness :
    paraBlock (str "<h1>Ok</h1>") = str "<h1>Ok</h1>" :=
  parseMarkdown_no_double_wrap.2 (str "<h1>Ok</h1>") (by decide)

/-- Claim C8 is false on the code: for the two list runs of
"* a\n\ntext\n\n* b" the code emits one single `<ul>` spanning from the
first `<li>` to the last `</li>`, with the intervening paragraph
`<p>text</p>` inside it, instead of one `<ul>` per run with the text
outside. -/
theorem parseMarkdown_single_ul_cx :
    parseMarkdown (str "* a\n\ntext\n\n* b")
      = str "<ul><li>a</li>\n<p>text</p>\n<li>b</li></ul>" ∧
    countSub (str "<ul>") (parseMarkdown (str "* a\n\ntext\n\n* b")) = 1 := by
  decide

/-- Claim C8 as amended: lines beginning with `* ` or `- ` are
individually wrapped as `<li>` items, and then one single `<ul>` is
wrapped around the span from the first `<li>` to the last `</li>` of the
whole document (the replacement is applied once, with `.` matching
newlines), so multiple runs share one `<ul>` and anything between them
ends up inside it.  Stated for any decomposition whose first `<li>`
starts after `pre` and whose last `</li>` ends before `post`. -/
theorem ulStep_single_wrap (pre mid post : List Char)
    (h1 : hasSub (str "<li>") (pre ++ str "<li") = false)
    (h2 : hasSub (str "</li>") (str "/li>" ++ post) = false) :
    ulStep (pre ++ (str "<li>" ++ (mid ++ (str "</li>" ++ post))))
      = pre ++ (str "<ul>" ++ (str "<li>"
          ++ (mid ++ (str "</li>" ++ (str "</ul>" ++ post))))) := by
  unfold ulStep
  have hdl : (str "<li>").dropLast = str "<li" := by decide
  have hsf : splitFirst (str "<li>")
      (pre ++ (str "<li>" ++ (mid ++ (str "</li>" ++ post))))
      = some (pre, mid ++ (str "</li>" ++ post)) := by
    apply splitFirst_app _ _ _ (by decide)
    rw [hdl]
    exact h1
  have hno2 : hasSub (str "</li>").reverse
      (post.reverse ++ (str "</li>").reverse.dropLast) = false := by
    have e1 : (str "</li>").reverse.dropLast = (str "/li>").reverse := by decide
    have e2 : post.reverse ++ (str "/li>").reverse
        = (str "/li>" ++ post).reverse := by simp
    rw [e1, e2, hasSub_rev]
    exact h2
  have hsl : splitLast (str "</li>") (mid ++ (str "</li>" ++ post))
      = some (mid, post) :=
    splitLast_app _ _ _ (by decide) hno2
  simp only [hsf, hsl]
  simp

/-- Witness for the amended C8 on a concrete decomposition. -/
theorem ulStep_single_wrap_witness :
    ulStep (str "x" ++ (str "<li>" ++ (str "a" ++ (str "</li>" ++ str "y"))))
      = str "x" ++ (str "<ul>" ++ (str "<li>"
          ++ (str "a" ++ (str "</li>" ++ (str "</ul>" ++ str "y"))))) :=
  ulStep_single_wrap (str "x") (str "a") (str "y") (by decide) (by decide)

/-- Claim C9: from a stored "light" theme or no stored theme, one toggle
sets and persists "dark", a second sets and persists "light", so two
toggles restore "light". -/
theorem toggleTheme_two_state (st : ThemeState)
    (h : st.stored = some "light" ∨ st.stored = none) :
    (toggleTheme (initTheme st)).docTheme = some "dark" ∧
    (toggleTheme (initTheme st)).stored = some "dark" ∧
    (toggleTheme (toggleTheme (initTheme st))).docTheme = some "light" ∧
    (toggleTheme (toggleTheme (initTheme st))).stored = some "light" := by
  obtain ⟨d, s0, i⟩ := st
  rcases h with h | h
  · replace h : s0 = some "light" := h
    subst h
    exact ⟨rfl, rfl, rfl, rfl⟩
  · replace h : s0 = none := h
    subst h
    exact ⟨rfl, rfl, rfl, rfl⟩

/-- Witness for C9 starting from a stored "light" theme. -/
theorem toggleTheme_two_state_witness :
    (toggleTheme (initTheme ⟨none, some "light", "x"⟩)).docTheme = some "dark" ∧
    (toggleTheme (initTheme ⟨none, some "light", "x"⟩)).stored = some "dark" ∧
    (toggleTheme (toggleTheme (initTheme ⟨none, some "light", "x"⟩))).docTheme
      = some "light" ∧
    (toggleTheme (toggleTheme (initTheme ⟨none, some "light", "x"⟩))).stored
      = some "light" :=
  toggleTheme_two_state ⟨none, some "light", "x"⟩ (Or.inl rfl)

/-- Claim C10: inline code spans are embedded verbatim (the `<` and `&`
of the span content appear unescaped inside `<code>`), while fenced code
blocks pass their content through `escapeHtml`; the third conjunct shows
the same content does get rewritten by `escapeHtml`. -/
theorem inline_code_not_escaped :
    parseMarkdown (str "`a<b&c`") = str "<code>a<b&c</code>" ∧
    parseMarkdown (str "```a<b&c```")
      = str "<pre><code>a&lt;b&amp;c</code></pre>" ∧
    escapeHtml (str "a<b&c") = str "a&lt;b&amp;c" := by
  refine ⟨by decide, by decide, by decide⟩

end Diagnostico
